import Mathlib

/-!
Verification of the `s3_reader` core (`src/s3_reader/s3_reader.py`) against its
natural-language specification.

The Python module is shallowly embedded: the remote S3 service, the JSON
parser and the local filesystem are abstracted as a `World` of deterministic
response functions; each Python function becomes a Lean function over that
world.  Thread-pool fan-out is modelled by running every submitted job and
then folding the per-job results in an explicit completion order `perm`
(a permutation of the job indices), exactly as `as_completed` delivers them.
Pagination loops are modelled with explicit fuel; `none` models a loop that
never terminates.  Side effects (S3 fetch calls, directory creation, file
writes, client creation and closing, thread-pool capacity) are recorded in
explicit effect fields of the returned structures.
-/

namespace S3Reader

/-- Payload bytes, modelled as a list of byte values. -/
abbrev Bytes := List Nat

/-- A Python value returned for one key: either the result of `json.loads`
(abstracted as a `Nat` tag chosen by the world's parser) or raw bytes. -/
inductive PyVal where
  | dict (v : Nat)
  | bytes (b : Bytes)
deriving DecidableEq, Repr

/-- Python exceptions relevant to the module. -/
inductive PyErr where
  | typeError
  | valueError
  | other (msg : String)
deriving DecidableEq, Repr

/-- One `list_objects_v2` response: the `Contents` keys, the `CommonPrefixes`
entries, and the optional `NextContinuationToken` (tokens are modelled as
page indices into the backend's page list). -/
structure Page where
  contents : List String
  commonPfx : List String
  nextToken : Option Nat
deriving DecidableEq, Repr, Inhabited

/-- Externally observable side effects of a (batch of) download calls:
the S3 keys fetched (one entry per `download_fileobj` call), the directories
created by `os.makedirs`, and the local files written with their bytes. -/
structure Effects where
  fetches : List String
  dirs : List String
  files : List (String × Bytes)
deriving DecidableEq, Repr

def Effects.empty : Effects := ⟨[], [], []⟩

def Effects.append (a b : Effects) : Effects :=
  ⟨a.fetches ++ b.fetches, a.dirs ++ b.dirs, a.files ++ b.files⟩

/-- The environment a call runs against: the bucket's listing backend
(without and with `Delimiter='/'`), keyed by prefix and continuation token;
the object-fetch backend; the JSON parser; and whether `os.makedirs` /
`open(...,'wb').write` succeed at a given path.  `Except.error` models the
corresponding Python call raising. -/
structure World where
  listCall : String → Option Nat → Except String Page
  listCallD : String → Option Nat → Except String Page
  fetch : String → Except String Bytes
  jsonLoads : Bytes → Except String Nat
  mkdirOk : String → Bool
  writeOk : String → Bool

/-- Characters strictly before the last '/' of the list, or `none` when the
list has no '/'. -/
def beforeLastSlash : List Char → Option (List Char)
  | [] => none
  | c :: cs =>
    match beforeLastSlash cs with
    | some r => some (c :: r)
    | none => if c = '/' then some [] else none

/-- os.path.dirname for the relative key paths the module handles:
everything before the last '/', or the empty string when there is none. -/
def dirname (s : String) : String :=
  match beforeLastSlash s.toList with
  | some r => ⟨r⟩
  | none => ""

/-- os.path.join for the shapes used by the module: joining with the empty
string yields the second component unchanged. -/
def pathJoin (a b : String) : String :=
  if a = "" then b else a ++ "/" ++ b

/-- Python's default `max_workers` bound used by every fan-out. -/
def max_workers : Nat := 16

/-- The body of `download_by_key` (everything inside its `try:`), before the
blanket `except Exception` handler.  Returns the raised exception or the
`{key: value}` singleton dict (modelled as the pair), together with the side
effects that happened before returning/raising.  Mirrors lines 158-172 of
`s3_reader.py`: fetch the object, then branch on `output_format`; in the
`'bytes'` branch, if `output_dir` is not `None`, create
`output_dir/dirname(key)` and write the payload to `output_dir/key`;
an unrecognized `output_format` raises `ValueError`. -/
def download_by_key_inner (w : World) (key fmt : String) (od : Option String) :
    Except PyErr (String × PyVal) × Effects :=
  match w.fetch key with
  | .error e => (.error (.other e), ⟨[key], [], []⟩)
  | .ok data =>
    if fmt = "dict" then
      match w.jsonLoads data with
      | .error e => (.error (.other e), ⟨[key], [], []⟩)
      | .ok v => (.ok (key, .dict v), ⟨[key], [], []⟩)
    else if fmt = "bytes" then
      match od with
      | some dir =>
        let dpath := pathJoin dir (dirname key)
        if w.mkdirOk dpath then
          let fpath := pathJoin dir key
          if w.writeOk fpath then
            (.ok (key, .bytes data), ⟨[key], [dpath], [(fpath, data)]⟩)
          else (.error (.other "write failed"), ⟨[key], [dpath], []⟩)
        else (.error (.other "makedirs failed"), ⟨[key], [], []⟩)
      | none => (.ok (key, .bytes data), ⟨[key], [], []⟩)
    else (.error .valueError, ⟨[key], [], []⟩)

/-- `download_by_key` (lines 140-175): the body wrapped in the
`except Exception: print(err); return` handler, which converts every raised
exception into the Python return value `None`. -/
def download_by_key (w : World) (key fmt : String) (od : Option String) :
    Option (String × PyVal) × Effects :=
  match download_by_key_inner w key fmt od with
  | (.ok kv, eff) => (some kv, eff)
  | (.error _, eff) => (none, eff)

/-- The `while continuation_token := resp.get('NextContinuationToken')` loop
shared by `list_keys_by_prefix` (lines 102-104), accumulating `Contents`
keys.  `fuel` bounds the number of iterations; `none` models a loop that
never reaches a token-free page.  A raised listing error is caught by the
enclosing `except` and the whole function returns `[]`.  The second
component counts the `list_objects_v2` calls issued so far. -/
def listLoop (call : Option Nat → Except String Page) :
    Nat → Page → List String → Nat → Option (List String × Nat)
  | fuel, resp, keys, calls =>
    match resp.nextToken with
    | none => some (keys, calls)
    | some t =>
      match fuel with
      | 0 => none
      | f + 1 =>
        match call (some t) with
        | .error _ => some ([], calls + 1)
        | .ok resp2 => listLoop call f resp2 (keys ++ resp2.contents) (calls + 1)

/-- `list_keys_by_prefix` (lines 85-108).  The S3 client, bucket and prefix
are curried into `call := w.listCall pfx`; the result also carries the
number of `list_objects_v2` calls issued. -/
def list_keys_by_prefix (call : Option Nat → Except String Page) (fuel : Nat) :
    Option (List String × Nat) :=
  match call none with
  | .error _ => some ([], 1)
  | .ok resp => listLoop call fuel resp resp.contents 1

/-- The pagination loop of `list_prefixes_by_prefix` (lines 46-49):
identical to `listLoop` but accumulating `CommonPrefixes` entries from the
delimiter-scoped listing. -/
def listLoopD (call : Option Nat → Except String Page) :
    Nat → Page → List String → Nat → Option (List String × Nat)
  | fuel, resp, acc, calls =>
    match resp.nextToken with
    | none => some (acc, calls)
    | some t =>
      match fuel with
      | 0 => none
      | f + 1 =>
        match call (some t) with
        | .error _ => some ([], calls + 1)
        | .ok resp2 => listLoopD call f resp2 (acc ++ resp2.commonPfx) (calls + 1)

/-- `list_prefixes_by_prefix` (lines 29-53), with `call := w.listCallD pfx`
(the `Delimiter='/'` listing). -/
def list_prefixes_by_prefix (call : Option Nat → Except String Page) (fuel : Nat) :
    Option (List String × Nat) :=
  match call none with
  | .error _ => some ([], 1)
  | .ok resp => listLoopD call fuel resp resp.commonPfx 1

/-- A simulated listing backend built from a list of pages: the initial,
token-free request returns page 0, and the request carrying token `t`
returns page `t`.  Listing calls on it never raise. -/
def backendOf (ps : List Page) : Option Nat → Except String Page
  | none => .ok (ps.getD 0 default)
  | some t => .ok (ps.getD t default)

/-- A well-formed page chain: every page except the last carries the token
naming the next page, and the last page carries no token.  Under
`backendOf` this is exactly the claim's setting: page N+1 is served
precisely for page N's token. -/
def chainWF (ps : List Page) : Prop :=
  ∀ i, (h : i < ps.length) → ps[i].nextToken =
    if i + 1 < ps.length then some (i + 1) else none

/-- Observable outcome of one batch listing call
(`list_keys_by_prefixes` / `list_prefixes_by_prefixes`): the Python return
value (`none` models Python `None`, returned when the input list is empty),
how many S3 clients were created and closed, the thread-pool capacity
requested (`none` when no pool was constructed), and the total number of
`list_objects_v2` calls issued. -/
structure ListBatchOut where
  result : Option (List String)
  created : Nat
  closed : Nat
  pool : Option Nat
  calls : Nat
deriving DecidableEq, Repr, Inhabited

/-- The jobs submitted by `list_keys_by_prefixes`
(`executor.submit(func, prefix) for prefix in prefixes`): one pagination per
prefix, all against the shared client. -/
def listJobs (w : World) (pfxs : List String) (fuel : Nat) :
    List (Option (List String × Nat)) :=
  pfxs.map fun p => list_keys_by_prefix (w.listCall p) fuel

/-- The jobs submitted by `list_prefixes_by_prefixes`. -/
def listJobsD (w : World) (pfxs : List String) (fuel : Nat) :
    List (Option (List String × Nat)) :=
  pfxs.map fun p => list_prefixes_by_prefix (w.listCallD p) fuel

/-- The non-empty branch shared by both listing batches: if every job
terminates, the output is the per-job result lists concatenated in
completion order `perm`; one client is created and closed, the pool capacity
is `min(max_workers, n)` and the listing calls of all jobs are summed. -/
def drainBatch (jobs : List (Option (List String × Nat))) (n : Nat)
    (perm : List Nat) : Option ListBatchOut :=
  if jobs.all Option.isSome then
    some { result := some (perm.map (fun i => ((jobs.getD i none).getD ([], 0)).1)).flatten
           created := 1
           closed := 1
           pool := some (min max_workers n)
           calls := (jobs.map fun j => (j.getD ([], 0)).2).foldr (· + ·) 0 }
  else none

/-- `list_keys_by_prefixes` (lines 111-137).  `perm` is the completion order
of the submitted jobs (a permutation of their indices) in which
`as_completed` yields them; `keys.extend(job.result())` makes the output the
concatenation of per-prefix results in that order.  The whole call is `none`
when some job's pagination never terminates (fuel exhausted).  The client is
created before the `try:` and closed in `finally:`. -/
def list_keys_by_prefixes (w : World) (pfxs : List String) (fuel : Nat)
    (perm : List Nat) : Option ListBatchOut :=
  if pfxs = [] then some ⟨none, 0, 0, none, 0⟩
  else drainBatch (listJobs w pfxs fuel) pfxs.length perm

/-- `list_prefixes_by_prefixes` (lines 56-82): as `list_keys_by_prefixes`
but over the delimiter-scoped per-prefix listing. -/
def list_prefixes_by_prefixes (w : World) (pfxs : List String) (fuel : Nat)
    (perm : List Nat) : Option ListBatchOut :=
  if pfxs = [] then some ⟨none, 0, 0, none, 0⟩
  else drainBatch (listJobsD w pfxs fuel) pfxs.length perm

/-- Combined side effects of all download jobs of one batch (every submitted
job runs to completion even if the aggregation loop raises first, because
`ThreadPoolExecutor.__exit__` waits for all of them).  Cross-thread
interleaving is recorded in submission order; the claims only use
order-insensitive facts about these lists. -/
def batchEffects (w : World) (keys : List String) (fmt : String)
    (od : Option String) : Effects :=
  (keys.map fun k => (download_by_key w k fmt od).2).foldr Effects.append Effects.empty

/-- Python `dict.update({k: v})`: an existing key keeps its position and gets
the new value; a new key is appended. -/
def dictUpdate (d : List (String × PyVal)) (k : String) (v : PyVal) :
    List (String × PyVal) :=
  if k ∈ d.map Prod.fst then d.map fun kv => if kv.1 = k then (k, v) else kv
  else d ++ [(k, v)]

/-- The `for job in jobs_iter: data.update(job.result())` loop of
`download_by_keys` (lines 205-206): folds each completed job's result into
the dict; a job that returned Python `None` makes `dict.update(None)` raise
`TypeError`. -/
def updateLoop : List (String × PyVal) → List (Option (String × PyVal)) →
    Except PyErr (List (String × PyVal))
  | acc, [] => .ok acc
  | _, none :: _ => .error .typeError
  | acc, some kv :: rest => updateLoop (dictUpdate acc kv.1 kv.2) rest

instance {ε α : Type _} [DecidableEq ε] [DecidableEq α] : DecidableEq (Except ε α) :=
  fun x y =>
  match x, y with
  | .error a, .error b =>
    if h : a = b then .isTrue (h ▸ rfl) else .isFalse fun he => h (Except.error.inj he)
  | .ok a, .ok b =>
    if h : a = b then .isTrue (h ▸ rfl) else .isFalse fun he => h (Except.ok.inj he)
  | .error _, .ok _ => .isFalse fun he => Except.noConfusion he
  | .ok _, .error _ => .isFalse fun he => Except.noConfusion he

instance (ps : List Page) : Decidable (chainWF ps) := by
  unfold chainWF
  exact Nat.decidableBallLT _ _

/-- Observable outcome of one `download_by_keys` call: the Python outcome
(`.error` a raised exception, `.ok none` Python `None`, `.ok (some d)` the
returned dict as an ordered association list), client counts, pool capacity,
and the accumulated side effects of all jobs. -/
structure BatchOut where
  result : Except PyErr (Option (List (String × PyVal)))
  created : Nat
  closed : Nat
  pool : Option Nat
  eff : Effects
deriving DecidableEq, Repr

/-- The jobs submitted by `download_by_keys`
(`executor.submit(func, key) for key in keys`): one download per key, all
against the shared client. -/
def dlJobs (w : World) (keys : List String) (fmt : String)
    (od : Option String) : List (Option (String × PyVal) × Effects) :=
  keys.map fun k => download_by_key w k fmt od

/-- The per-job Python return values in the completion order `perm` in which
`as_completed` yields them to the aggregation loop. -/
def dlResults (jobs : List (Option (String × PyVal) × Effects))
    (perm : List Nat) : List (Option (String × PyVal)) :=
  perm.map fun i => (jobs.getD i (none, Effects.empty)).1

/-- `download_by_keys` (lines 178-209).  `perm` is the completion order in
which `as_completed` yields the jobs.  On empty `keys` the function body is
skipped and Python returns `None` with no client and no pool.  Otherwise the
client is created, all jobs run, and the results are folded into a dict in
completion order; the `finally:` closes the client even when the fold
raises. -/
def download_by_keys (w : World) (keys : List String) (fmt : String)
    (od : Option String) (perm : List Nat) : BatchOut :=
  if keys = [] then ⟨.ok none, 0, 0, none, Effects.empty⟩
  else
    { result := (updateLoop [] (dlResults (dlJobs w keys fmt od) perm)).map some
      created := 1
      closed := 1
      pool := some (min max_workers keys.length)
      eff := batchEffects w keys fmt od }

/-- `download_by_prefixes` (lines 212-232): resolve the prefixes to a key
list via `list_keys_by_prefixes`, then download those keys.  When the prefix
list is empty the resolution step returns Python `None` and
`len(None)` inside `download_by_keys` raises `TypeError` before any client
is created. -/
def download_by_prefixes (w : World) (pfxs : List String) (fmt : String)
    (od : Option String) (fuel : Nat) (permL permD : List Nat) :
    Option BatchOut :=
  match list_keys_by_prefixes w pfxs fuel permL with
  | none => none
  | some lb =>
    match lb.result with
    | none => some ⟨.error .typeError, 0, 0, none, Effects.empty⟩
    | some keys => some (download_by_keys w keys fmt od permD)

end S3Reader

namespace S3Reader

def wAllOk : World :=
  { listCall := fun _ _ => .ok ⟨[], [], none⟩
    listCallD := fun _ _ => .ok ⟨[], [], none⟩
    fetch := fun _ => .ok [7]
    jsonLoads := fun _ => .ok 0
    mkdirOk := fun _ => true
    writeOk := fun _ => true }

example : download_by_key wAllOk "a/b" "bytes" (some "") =
    (some ("a/b", .bytes [7]), ⟨["a/b"], ["a"], [("a/b", [7])]⟩) := by decide

example : download_by_key wAllOk "a/b" "xml" (some "out") =
    (none, ⟨["a/b"], [], []⟩) := by decide

example : download_by_key wAllOk "a/b" "dict" (some "out") =
    (some ("a/b", .dict 0), ⟨["a/b"], [], []⟩) := by decide

def ps2 : List Page := [⟨["a", "b"], [], some 1⟩, ⟨["c"], [], none⟩]

example : list_keys_by_prefix (backendOf ps2) 2 = some (["a", "b", "c"], 2) := by decide

example : chainWF ps2 := by decide

example : download_by_keys wAllOk ["x", "x", "y"] "dict" none [2, 0, 1] =
    { result := .ok (some [("y", .dict 0), ("x", .dict 0)])
      created := 1, closed := 1, pool := some 3
      eff := ⟨["x", "x", "y"], [], []⟩ } := by decide

example : download_by_keys wAllOk [] "dict" none [] =
    ⟨.ok none, 0, 0, none, Effects.empty⟩ := by decide

/-- A world where fetching key `k3` raises and every other fetch succeeds. -/
def wFail3 : World :=
  { wAllOk with fetch := fun k => if k = "k3" then .error "not found" else .ok [1] }

/-- C1: the claim says a call to `download_by_keys` over N keys of which M
fail raises nothing and returns the N−M successes.  The code violates this:
`download_by_key` converts a failed fetch into Python `None`, and
`data.update(None)` in `download_by_keys` then raises `TypeError` — exactly
the spec's own 5-key example (key 3's fetch throws) aborts the batch
instead of returning the 4 successes.  This theorem evaluates the embedded
code at that failing input. -/
theorem c1_failure_isolation_bug :
    download_by_keys wFail3 ["k1", "k2", "k3", "k4", "k5"] "dict" (some "")
      [0, 1, 2, 3, 4] =
    { result := .error .typeError, created := 1, closed := 1, pool := some 5,
      eff := ⟨["k1", "k2", "k3", "k4", "k5"], [], []⟩ } := by decide

/-- C3: for an `output_format` other than `'dict'`/`'bytes'`, the body of
`download_by_key` raises `ValueError` — but the `raise` sits inside the
function's own `try:`, so the blanket `except Exception` catches it and the
function returns `None` (an absent result) instead of propagating the
error.  The claim that the `ValueError` propagates to the caller is false on
the code. -/
theorem c3_invalid_format_swallowed (w : World) (k fmt : String)
    (od : Option String) (b : Bytes) (hb : w.fetch k = .ok b)
    (h1 : fmt ≠ "dict") (h2 : fmt ≠ "bytes") :
    (download_by_key_inner w k fmt od).1 = .error .valueError ∧
    (download_by_key w k fmt od).1 = none := by
  have hin : download_by_key_inner w k fmt od = (.error .valueError, ⟨[k], [], []⟩) := by
    unfold download_by_key_inner
    rw [hb]
    simp [h1, h2]
  refine ⟨by rw [hin], ?_⟩
  unfold download_by_key
  rw [hin]

theorem c3_witness :
    wAllOk.fetch "k" = .ok [7] ∧ ("xml" : String) ≠ "dict" ∧
    ("xml" : String) ≠ "bytes" ∧
    ((download_by_key_inner wAllOk "k" "xml" none).1 = .error .valueError ∧
      (download_by_key wAllOk "k" "xml" none).1 = none) :=
  ⟨rfl, by decide, by decide,
    c3_invalid_format_swallowed wAllOk "k" "xml" none [7] rfl (by decide) (by decide)⟩

/-- Whenever `drainBatch` returns an outcome, its bookkeeping fields are the
ones of the non-empty branch. -/
lemma drainBatch_fields {jobs : List (Option (List String × Nat))} {n : Nat}
    {perm : List Nat} {o : ListBatchOut} (h : drainBatch jobs n perm = some o) :
    o.created = 1 ∧ o.closed = 1 ∧ o.pool = some (min max_workers n) := by
  unfold drainBatch at h
  split at h
  · rw [← Option.some.inj h]
    exact ⟨rfl, rfl, rfl⟩
  · exact absurd h (by simp)

/-- C5: every fan-out constructs its pool with capacity exactly
`min(max_workers, len(items))`, `max_workers = 16`, on non-empty input
(conditioned, for the listing batches, on the call terminating and hence
returning an observable outcome). -/
theorem c5_pool_capacity (w : World) (keys pfx1 pfx2 : List String)
    (fmt : String) (od : Option String) (fuel : Nat) (pm p1 p2 : List Nat)
    (o1 o2 : ListBatchOut) (hk : keys ≠ []) (hp1 : pfx1 ≠ []) (hp2 : pfx2 ≠ [])
    (h1 : list_keys_by_prefixes w pfx1 fuel p1 = some o1)
    (h2 : list_prefixes_by_prefixes w pfx2 fuel p2 = some o2) :
    (download_by_keys w keys fmt od pm).pool = some (min max_workers keys.length) ∧
    o1.pool = some (min max_workers pfx1.length) ∧
    o2.pool = some (min max_workers pfx2.length) := by
  unfold list_keys_by_prefixes at h1
  rw [if_neg hp1] at h1
  unfold list_prefixes_by_prefixes at h2
  rw [if_neg hp2] at h2
  refine ⟨?_, (drainBatch_fields h1).2.2, (drainBatch_fields h2).2.2⟩
  unfold download_by_keys
  rw [if_neg hk]

theorem c5_witness :
    (["a", "b", "c"] : List String) ≠ [] ∧ (["p"] : List String) ≠ [] ∧
    (download_by_keys wAllOk ["a", "b", "c"] "dict" none [0, 1, 2]).pool = some 3 := by
  have h := c5_pool_capacity wAllOk ["a", "b", "c"] ["p"] ["p"] "dict" none 1
    [0, 1, 2] [0] [0] ⟨some [], 1, 1, some 1, 1⟩ ⟨some [], 1, 1, some 1, 1⟩
    (by decide) (by decide) (by decide) (by decide) (by decide)
  exact ⟨by decide, by decide, h.1⟩

/-- C6: on non-empty input each batch call creates exactly one client and
closes it exactly once, on every exit path — in particular the conclusion
for `download_by_keys` holds even when its aggregation loop raises
`TypeError` (the `finally:` closes the client before the exception leaves
the call), and for the listing batches whenever the call returns at all. -/
theorem c6_client_lifetime (w : World) (keys pfx1 pfx2 : List String)
    (fmt : String) (od : Option String) (fuel : Nat) (pm p1 p2 : List Nat)
    (o1 o2 : ListBatchOut) (hk : keys ≠ []) (hp1 : pfx1 ≠ []) (hp2 : pfx2 ≠ [])
    (h1 : list_keys_by_prefixes w pfx1 fuel p1 = some o1)
    (h2 : list_prefixes_by_prefixes w pfx2 fuel p2 = some o2) :
    ((download_by_keys w keys fmt od pm).created = 1 ∧
      (download_by_keys w keys fmt od pm).closed = 1) ∧
    (o1.created = 1 ∧ o1.closed = 1) ∧ (o2.created = 1 ∧ o2.closed = 1) := by
  unfold list_keys_by_prefixes at h1
  rw [if_neg hp1] at h1
  unfold list_prefixes_by_prefixes at h2
  rw [if_neg hp2] at h2
  refine ⟨⟨?_, ?_⟩, ⟨(drainBatch_fields h1).1, (drainBatch_fields h1).2.1⟩,
    ⟨(drainBatch_fields h2).1, (drainBatch_fields h2).2.1⟩⟩
  · unfold download_by_keys
    rw [if_neg hk]
  · unfold download_by_keys
    rw [if_neg hk]

theorem c6_witness :
    (download_by_keys wFail3 ["k3"] "dict" none [0]).result = .error .typeError ∧
    (download_by_keys wFail3 ["k3"] "dict" none [0]).created = 1 ∧
    (download_by_keys wFail3 ["k3"] "dict" none [0]).closed = 1 := by
  have h := c6_client_lifetime wFail3 ["k3"] ["p"] ["p"] "dict" none 1 [0] [0] [0]
    ⟨some [], 1, 1, some 1, 1⟩ ⟨some [], 1, 1, some 1, 1⟩
    (by decide) (by decide) (by decide) (by decide) (by decide)
  exact ⟨by decide, h.1.1, h.1.2⟩

/-- C7 counterexample: the claim says that when `output_dir` is not supplied
by the caller no disk write occurs.  The source's default for `output_dir`
is `''` — not `None` — and the guard is `if output_dir is not None`, so a
call that omits `output_dir` (here: `od = some ""`) with
`output_format='bytes'` does write the payload, at `os.path.join('', key) =
key` under the current working directory. -/
theorem c7_default_dir_still_writes :
    (download_by_key wAllOk "a/b" "bytes" (some "")).2.files = [("a/b", [7])] ∧
    (download_by_key wAllOk "a/b" "bytes" (some "")).2.files ≠ [] := by decide

/-- C8: when the fetch succeeds with payload `b` and the local directory
creation and file write succeed, `download_by_key` with
`output_format='bytes'` and `output_dir=d` writes exactly `b` to
`os.path.join(d, key)` (after creating `os.path.join(d, dirname(key))`) and
returns `{key: b}` — the bytes on disk, the fetched payload and the returned
payload coincide. -/
theorem c8_persistence_roundtrip (w : World) (k d : String) (b : Bytes)
    (hb : w.fetch k = .ok b)
    (hm : w.mkdirOk (pathJoin d (dirname k)) = true)
    (hw : w.writeOk (pathJoin d k) = true) :
    download_by_key w k "bytes" (some d) =
      (some (k, .bytes b), ⟨[k], [pathJoin d (dirname k)], [(pathJoin d k, b)]⟩) := by
  have hin : download_by_key_inner w k "bytes" (some d) =
      (.ok (k, .bytes b), ⟨[k], [pathJoin d (dirname k)], [(pathJoin d k, b)]⟩) := by
    unfold download_by_key_inner
    rw [hb]
    simp [hm, hw]
  unfold download_by_key
  rw [hin]

theorem c8_witness :
    wAllOk.fetch "a/b" = .ok [7] ∧
    wAllOk.mkdirOk (pathJoin "out" (dirname "a/b")) = true ∧
    wAllOk.writeOk (pathJoin "out" "a/b") = true ∧
    download_by_key wAllOk "a/b" "bytes" (some "out") =
      (some ("a/b", .bytes [7]),
        ⟨["a/b"], [pathJoin "out" (dirname "a/b")], [(pathJoin "out" "a/b", [7])]⟩) :=
  ⟨rfl, rfl, rfl, c8_persistence_roundtrip wAllOk "a/b" "out" [7] rfl rfl rfl⟩

lemma listLoop_none (call : Option Nat → Except String Page) (fuel : Nat)
    (resp : Page) (acc : List String) (calls : Nat)
    (h : resp.nextToken = none) :
    listLoop call fuel resp acc calls = some (acc, calls) := by
  unfold listLoop
  rw [h]

lemma listLoop_step (call : Option Nat → Except String Page) (f : Nat)
    (resp : Page) (acc : List String) (calls t : Nat) (resp2 : Page)
    (h : resp.nextToken = some t) (hc : call (some t) = .ok resp2) :
    listLoop call (f + 1) resp acc calls =
      listLoop call f resp2 (acc ++ resp2.contents) (calls + 1) := by
  conv_lhs => rw [listLoop]
  rw [h]
  change (match call (some t) with
    | .error _ => some ([], calls + 1)
    | .ok r => listLoop call f r (acc ++ r.contents) (calls + 1)) = _
  rw [hc]

lemma listLoopD_none (call : Option Nat → Except String Page) (fuel : Nat)
    (resp : Page) (acc : List String) (calls : Nat)
    (h : resp.nextToken = none) :
    listLoopD call fuel resp acc calls = some (acc, calls) := by
  unfold listLoopD
  rw [h]

lemma listLoopD_step (call : Option Nat → Except String Page) (f : Nat)
    (resp : Page) (acc : List String) (calls t : Nat) (resp2 : Page)
    (h : resp.nextToken = some t) (hc : call (some t) = .ok resp2) :
    listLoopD call (f + 1) resp acc calls =
      listLoopD call f resp2 (acc ++ resp2.commonPfx) (calls + 1) := by
  conv_lhs => rw [listLoopD]
  rw [h]
  change (match call (some t) with
    | .error _ => some ([], calls + 1)
    | .ok r => listLoopD call f r (acc ++ r.commonPfx) (calls + 1)) = _
  rw [hc]

lemma backendOf_some (ps : List Page) (t : Nat) (h : t < ps.length) :
    backendOf ps (some t) = .ok ps[t] := by
  show Except.ok (ps.getD t default) = Except.ok ps[t]
  rw [List.getD_eq_getElem _ _ h]

lemma backendOf_first (ps : List Page) (h : 0 < ps.length) :
    backendOf ps none = .ok ps[0] := by
  show Except.ok (ps.getD 0 default) = Except.ok ps[0]
  rw [List.getD_eq_getElem _ _ h]

/-- Entering the pagination loop after a successful initial listing call. -/
lemma lkbp_start (call : Option Nat → Except String Page) (fuel : Nat)
    (resp : Page) (h : call none = .ok resp) :
    list_keys_by_prefix call fuel = listLoop call fuel resp resp.contents 1 := by
  unfold list_keys_by_prefix
  rw [h]

/-- Entering the delimiter-scoped pagination loop after a successful initial
listing call. -/
lemma lpbp_start (call : Option Nat → Except String Page) (fuel : Nat)
    (resp : Page) (h : call none = .ok resp) :
    list_prefixes_by_prefix call fuel =
      listLoopD call fuel resp resp.commonPfx 1 := by
  unfold list_prefixes_by_prefix
  rw [h]

/-- Invariant of the pagination loop over a well-formed chain: starting from
page `i` with the accumulator `acc` and `calls` calls already issued, the
loop appends the contents of pages `i+1 .. k-1` in page order and issues one
further call per remaining page. -/
lemma listLoop_chain (ps : List Page) (hwf : chainWF ps) :
    ∀ (fuel i : Nat) (h : i < ps.length) (acc : List String) (calls : Nat),
      ps.length - (i + 1) ≤ fuel →
      listLoop (backendOf ps) fuel ps[i] acc calls =
        some (acc ++ ((ps.drop (i + 1)).map Page.contents).flatten,
          calls + (ps.length - (i + 1))) := by
  intro fuel
  induction fuel with
  | zero =>
    intro i h acc calls hle
    have hnt := hwf i h
    rw [if_neg (by omega)] at hnt
    rw [listLoop_none _ _ _ _ _ hnt, List.drop_eq_nil_of_le (by omega)]
    have h0 : ps.length - (i + 1) = 0 := by omega
    simp [h0]
  | succ f ih =>
    intro i h acc calls hle
    have hnt := hwf i h
    by_cases hlt : i + 1 < ps.length
    · rw [if_pos hlt] at hnt
      rw [listLoop_step _ _ _ _ _ _ _ hnt (backendOf_some ps (i + 1) hlt)]
      rw [ih (i + 1) hlt (acc ++ ps[i + 1].contents) (calls + 1) (by omega)]
      simp only [Option.some.injEq, Prod.mk.injEq]
      constructor
      · rw [List.drop_eq_getElem_cons hlt]
        simp [List.append_assoc]
        rw [List.drop_eq_getElem_cons
          (show i + 1 < (List.map Page.contents ps).length from by simpa using hlt)]
        simp
      · omega
    · rw [if_neg hlt] at hnt
      rw [listLoop_none _ _ _ _ _ hnt, List.drop_eq_nil_of_le (by omega)]
      have h0 : ps.length - (i + 1) = 0 := by omega
      simp [h0]

/-- The same loop invariant for the `CommonPrefixes` accumulator. -/
lemma listLoopD_chain (ps : List Page) (hwf : chainWF ps) :
    ∀ (fuel i : Nat) (h : i < ps.length) (acc : List String) (calls : Nat),
      ps.length - (i + 1) ≤ fuel →
      listLoopD (backendOf ps) fuel ps[i] acc calls =
        some (acc ++ ((ps.drop (i + 1)).map Page.commonPfx).flatten,
          calls + (ps.length - (i + 1))) := by
  intro fuel
  induction fuel with
  | zero =>
    intro i h acc calls hle
    have hnt := hwf i h
    rw [if_neg (by omega)] at hnt
    rw [listLoopD_none _ _ _ _ _ hnt, List.drop_eq_nil_of_le (by omega)]
    have h0 : ps.length - (i + 1) = 0 := by omega
    simp [h0]
  | succ f ih =>
    intro i h acc calls hle
    have hnt := hwf i h
    by_cases hlt : i + 1 < ps.length
    · rw [if_pos hlt] at hnt
      rw [listLoopD_step _ _ _ _ _ _ _ hnt (backendOf_some ps (i + 1) hlt)]
      rw [ih (i + 1) hlt (acc ++ ps[i + 1].commonPfx) (calls + 1) (by omega)]
      simp only [Option.some.injEq, Prod.mk.injEq]
      constructor
      · rw [List.drop_eq_getElem_cons hlt]
        simp [List.append_assoc]
        rw [List.drop_eq_getElem_cons
          (show i + 1 < (List.map Page.commonPfx ps).length from by simpa using hlt)]
        simp
      · omega
    · rw [if_neg hlt] at hnt
      rw [listLoopD_none _ _ _ _ _ hnt, List.drop_eq_nil_of_le (by omega)]
      have h0 : ps.length - (i + 1) = 0 := by omega
      simp [h0]

/-- C2: over any simulated listing backend serving a well-formed chain of
`k` pages (pages 0..k-2 each carry the token naming the next page, the last
page carries none, and the backend answers token `t` with page `t`, so page
N+1 is only ever requested with page N's token), both paginators return the
concatenation of all pages' items in page order and issue exactly `k`
listing calls, given at least `k` loop iterations of fuel. -/
theorem c2_pagination_complete (ps : List Page) (fuel : Nat) (hne : ps ≠ [])
    (hwf : chainWF ps) (hfuel : ps.length ≤ fuel) :
    list_keys_by_prefix (backendOf ps) fuel =
      some ((ps.map Page.contents).flatten, ps.length) ∧
    list_prefixes_by_prefix (backendOf ps) fuel =
      some ((ps.map Page.commonPfx).flatten, ps.length) := by
  have hpos : 0 < ps.length := List.length_pos.mpr hne
  constructor
  · rw [lkbp_start (backendOf ps) fuel ps[0] (backendOf_first ps hpos)]
    rw [listLoop_chain ps hwf fuel 0 hpos ps[0].contents 1 (by omega)]
    simp only [Option.some.injEq, Prod.mk.injEq]
    constructor
    · conv_rhs => rw [← List.drop_zero ps, List.drop_eq_getElem_cons hpos]
      simp
    · omega
  · rw [lpbp_start (backendOf ps) fuel ps[0] (backendOf_first ps hpos)]
    rw [listLoopD_chain ps hwf fuel 0 hpos ps[0].commonPfx 1 (by omega)]
    simp only [Option.some.injEq, Prod.mk.injEq]
    constructor
    · conv_rhs => rw [← List.drop_zero ps, List.drop_eq_getElem_cons hpos]
      simp
    · omega

theorem c2_witness :
    ps2 ≠ [] ∧ chainWF ps2 ∧ ps2.length ≤ 2 ∧
    ( list_keys_by_prefix (backendOf ps2) 2 =
        some ((ps2.map Page.contents).flatten, ps2.length) ∧
      list_prefixes_by_prefix (backendOf ps2) 2 =
        some ((ps2.map Page.commonPfx).flatten, ps2.length)) :=
  ⟨by decide, by decide, by decide,
    c2_pagination_complete ps2 2 (by decide) (by decide) (by decide)⟩

/-- A backend with two single-page prefixes holding different keys. -/
def wTwo : World :=
  { wAllOk with listCall := fun p _ =>
      if p = "p1" then .ok ⟨["a"], [], none⟩ else .ok ⟨["b"], [], none⟩ }

/-- The key sequence a finished batch listing call handed back to its caller
(empty for the empty-input `None` and for a call that never returns). -/
def batchKeys (o : Option ListBatchOut) : List String :=
  ((o.getD ⟨none, 0, 0, none, 0⟩).result).getD []

/-- C4 counterexample: with fixed input prefixes and fixed per-prefix
results, two runs of `list_keys_by_prefixes` that differ only in worker
completion order return different ordered key sequences — the claim that
the ordered output is the same across any two runs is false.
`keys.extend(job.result())` runs in `as_completed` order, so the per-prefix
blocks appear in completion order. -/
theorem c4_counterexample :
    ([0, 1] : List Nat).Perm (List.range 2) ∧
    ([1, 0] : List Nat).Perm (List.range 2) ∧
    list_keys_by_prefixes wTwo ["p1", "p2"] 1 [0, 1] ≠
      list_keys_by_prefixes wTwo ["p1", "p2"] 1 [1, 0] := by decide

/-- C4 amended: the ordered key sequence is the concatenation of the
per-prefix result blocks in completion order, so it is not identical across
runs; what is run-independent is the multiset of keys — any two completion
orders of the same call yield permutations of each other. -/
theorem c4_amended_permutation (w : World) (pfxs : List String) (fuel : Nat)
    (p1 p2 : List Nat) (hp : p1.Perm p2) :
    (batchKeys (list_keys_by_prefixes w pfxs fuel p1)).Perm
      (batchKeys (list_keys_by_prefixes w pfxs fuel p2)) := by
  by_cases he : pfxs = []
  · simp [list_keys_by_prefixes, he, batchKeys]
  · by_cases hall : (listJobs w pfxs fuel).all Option.isSome
    · simp only [list_keys_by_prefixes, he, drainBatch, hall, batchKeys,
        if_neg, if_pos, if_true, if_false, ite_false, ite_true,
        Option.getD_some]
      exact (hp.map _).flatten
    · simp [list_keys_by_prefixes, he, drainBatch, hall, batchKeys]

theorem c4_witness :
    ([0, 1] : List Nat).Perm [1, 0] ∧
    (batchKeys (list_keys_by_prefixes wTwo ["p1", "p2"] 1 [0, 1])).Perm
      (batchKeys (list_keys_by_prefixes wTwo ["p1", "p2"] 1 [1, 0])) :=
  ⟨by decide, c4_amended_permutation wTwo ["p1", "p2"] 1 [0, 1] [1, 0] (by decide)⟩

/-- C7 amended: a successful local write happens iff `output_format` is
`'bytes'`, `output_dir` is not Python `None`, and the fetch, the directory
creation and the file write all succeed — in which case exactly the payload
is written to `os.path.join(output_dir, key)` after creating
`os.path.join(output_dir, dirname(key))`.  In particular the source default
`output_dir=''` (the value used when the caller omits the argument) does
not disable the write; only an explicit `output_dir=None` does. -/
theorem c7_amended_frame (w : World) (k fmt : String) (od : Option String) :
    (download_by_key w k fmt od).2.files ≠ [] ↔
      (fmt = "bytes" ∧ ∃ d b, od = some d ∧ w.fetch k = .ok b ∧
        w.mkdirOk (pathJoin d (dirname k)) = true ∧
        w.writeOk (pathJoin d k) = true ∧
        (download_by_key w k fmt od).2.files = [(pathJoin d k, b)] ∧
        (download_by_key w k fmt od).2.dirs = [pathJoin d (dirname k)]) := by
  unfold download_by_key download_by_key_inner
  cases hf : w.fetch k with
  | error e => simp [hf]
  | ok b =>
    by_cases hd : fmt = "dict"
    · cases hj : w.jsonLoads b with
      | error e => simp [hf, hd, hj]
      | ok v => simp [hf, hd, hj]
    · by_cases hby : fmt = "bytes"
      · cases od with
        | none => simp [hf, hd, hby]
        | some d =>
          by_cases hm : w.mkdirOk (pathJoin d (dirname k)) = true
          · by_cases hww : w.writeOk (pathJoin d k) = true
            · simp [hf, hd, hby, hm, hww]
            · simp [hf, hd, hby, hm, hww]
          · simp [hf, hd, hby, hm]
      · simp [hf, hd, hby]

lemma Effects.append_fetches (a b : Effects) :
    (Effects.append a b).fetches = a.fetches ++ b.fetches := rfl

/-- Every run of the body of `download_by_key` issues exactly one
`download_fileobj` call for its key, whatever happens afterwards. -/
lemma inner_fetches (w : World) (k fmt : String) (od : Option String) :
    (download_by_key_inner w k fmt od).2.fetches = [k] := by
  unfold download_by_key_inner
  cases hf : w.fetch k with
  | error e => rfl
  | ok b =>
    by_cases hd : fmt = "dict"
    · cases hj : w.jsonLoads b <;> simp [hd, hj]
    · by_cases hby : fmt = "bytes"
      · cases od with
        | none => simp [hd, hby]
        | some d =>
          by_cases hm : w.mkdirOk (pathJoin d (dirname k)) = true
          · by_cases hww : w.writeOk (pathJoin d k) = true <;>
              simp [hd, hby, hm, hww]
          · simp [hd, hby, hm]
      · simp [hd, hby]

/-- The `except` wrapper changes the return value, not the side effects. -/
lemma dk_eff (w : World) (k fmt : String) (od : Option String) :
    (download_by_key w k fmt od).2 = (download_by_key_inner w k fmt od).2 := by
  unfold download_by_key
  rcases hin : download_by_key_inner w k fmt od with ⟨r, eff⟩
  cases r <;> rfl

/-- The `except` wrapper turns the body's outcome into an `Option`. -/
lemma dk_fst (w : World) (k fmt : String) (od : Option String) :
    (download_by_key w k fmt od).1 = (download_by_key_inner w k fmt od).1.toOption := by
  unfold download_by_key
  rcases hin : download_by_key_inner w k fmt od with ⟨r, eff⟩
  cases r <;> rfl

/-- A successful body always returns the singleton dict keyed by its own
input key. -/
lemma inner_key (w : World) (k fmt : String) (od : Option String)
    (kv : String × PyVal) (h : (download_by_key_inner w k fmt od).1 = .ok kv) :
    kv.1 = k := by
  revert h
  unfold download_by_key_inner
  cases hf : w.fetch k with
  | error e => simp
  | ok b =>
    by_cases hd : fmt = "dict"
    · cases hj : w.jsonLoads b with
      | error e => simp [hd, hj]
      | ok v =>
        simp [hd, hj]
        intro h
        rw [← h]
    · by_cases hby : fmt = "bytes"
      · cases od with
        | none =>
          simp [hd, hby]
          intro h
          rw [← h]
        | some d =>
          by_cases hm : w.mkdirOk (pathJoin d (dirname k)) = true
          · by_cases hww : w.writeOk (pathJoin d k) = true
            · simp [hd, hby, hm, hww]
              intro h
              rw [← h]
            · simp [hd, hby, hm, hww]
          · simp [hd, hby, hm]
      · simp [hd, hby]

/-- A non-`None` worker result is keyed by the worker's own input key. -/
lemma dk_key (w : World) (k fmt : String) (od : Option String)
    (p : String × PyVal) (h : (download_by_key w k fmt od).1 = some p) :
    p.1 = k := by
  rw [dk_fst] at h
  cases hin : (download_by_key_inner w k fmt od).1 with
  | error e => rw [hin] at h; exact absurd h (by simp [Except.toOption])
  | ok kv =>
    rw [hin] at h
    simp [Except.toOption] at h
    rw [← h]
    exact inner_key w k fmt od kv hin

/-- The batch of download jobs fetches exactly the submitted key list: one
fetch per occurrence, duplicates included. -/
lemma batchEffects_fetches (w : World) (keys : List String) (fmt : String)
    (od : Option String) : (batchEffects w keys fmt od).fetches = keys := by
  induction keys with
  | nil => rfl
  | cons k ks ih =>
    unfold batchEffects at ih ⊢
    simp only [List.map_cons, List.foldr_cons]
    rw [Effects.append_fetches, dk_eff, inner_fetches, ih]
    rfl

/-- Keys of a Python `dict.update({k: v})`: unchanged when `k` was present,
extended by `k` at the end otherwise. -/
lemma dictUpdate_fst (d : List (String × PyVal)) (k : String) (v : PyVal) :
    (dictUpdate d k v).map Prod.fst =
      if k ∈ d.map Prod.fst then d.map Prod.fst else d.map Prod.fst ++ [k] := by
  unfold dictUpdate
  by_cases hk : k ∈ d.map Prod.fst
  · rw [if_pos hk, if_pos hk, List.map_map]
    apply List.map_congr_left
    intro kv _
    by_cases h1 : kv.1 = k
    · simp [h1]
    · simp [h1]
  · rw [if_neg hk, if_neg hk, List.map_append]
    rfl

/-- The aggregation loop over all-successful results returns a dict whose
key set is the input keys' set union the accumulator's, keeping the keys
duplicate-free. -/
lemma updateLoop_ok (rs : List (Option (String × PyVal))) :
    ∀ acc : List (String × PyVal), (∀ r ∈ rs, r.isSome = true) →
      ∃ d, updateLoop acc rs = .ok d ∧
        (∀ x, x ∈ d.map Prod.fst ↔
          x ∈ acc.map Prod.fst ∨ ∃ v, some (x, v) ∈ rs) ∧
        ((acc.map Prod.fst).Nodup → (d.map Prod.fst).Nodup) := by
  induction rs with
  | nil =>
    intro acc h
    exact ⟨acc, rfl, by simp, id⟩
  | cons r rest ih =>
    intro acc h
    cases r with
    | none => exact absurd (h none (List.mem_cons_self _ _)) (by simp)
    | some kv =>
      obtain ⟨d, hd, hmem, hnd⟩ :=
        ih (dictUpdate acc kv.1 kv.2) (fun r hr => h r (List.mem_cons_of_mem _ hr))
      refine ⟨d, hd, ?_, ?_⟩
      · intro x
        rw [hmem x, dictUpdate_fst]
        by_cases hk : kv.1 ∈ acc.map Prod.fst
        · rw [if_pos hk]
          simp only [List.mem_cons, Option.some.injEq]
          constructor
          · rintro (hx | ⟨v, hv⟩)
            · exact Or.inl hx
            · exact Or.inr ⟨v, Or.inr hv⟩
          · rintro (hx | ⟨v, hv | hv⟩)
            · exact Or.inl hx
            · left
              have hx1 : x = kv.1 := by rw [← hv]
              rw [hx1]
              exact hk
            · exact Or.inr ⟨v, hv⟩
        · rw [if_neg hk]
          simp only [List.mem_append, List.mem_cons, List.not_mem_nil, or_false,
            Option.some.injEq]
          constructor
          · rintro ((hx | hx) | ⟨v, hv⟩)
            · exact Or.inl hx
            · exact Or.inr ⟨kv.2, Or.inl (by rw [hx])⟩
            · exact Or.inr ⟨v, Or.inr hv⟩
          · rintro (hx | ⟨v, hv | hv⟩)
            · exact Or.inl (Or.inl hx)
            · exact Or.inl (Or.inr (by rw [← hv]))
            · exact Or.inr ⟨v, hv⟩
      · intro hnda
        apply hnd
        rw [dictUpdate_fst]
        by_cases hk : kv.1 ∈ acc.map Prod.fst
        · rw [if_pos hk]
          exact hnda
        · rw [if_neg hk]
          simp [List.nodup_append, hnda, hk]

/-- Reading every index of a list back through `getD` over `range` restores
the list. -/
lemma map_getD_range {α : Type _} (l : List α) (dflt : α) :
    (List.range l.length).map (fun i => l.getD i dflt) = l := by
  induction l with
  | nil => rfl
  | cons a t ih =>
    rw [List.length_cons, List.range_succ_eq_map]
    simp only [List.map_cons, List.getD_cons_zero, List.map_map]
    congr 1

/-- Resolving the prefixes to a concrete key list reduces
`download_by_prefixes` to `download_by_keys` on those keys. -/
lemma dbp_eq (w : World) (pfxs : List String) (fmt : String)
    (od : Option String) (fuel : Nat) (permL permD : List Nat)
    (lb : ListBatchOut) (keys : List String)
    (h1 : list_keys_by_prefixes w pfxs fuel permL = some lb)
    (h2 : lb.result = some keys) :
    download_by_prefixes w pfxs fmt od fuel permL permD =
      some (download_by_keys w keys fmt od permD) := by
  unfold download_by_prefixes
  rw [h1]
  change (match lb.result with
    | none => some ⟨.error .typeError, 0, 0, none, Effects.empty⟩
    | some ks => some (download_by_keys w ks fmt od permD)) =
    some (download_by_keys w keys fmt od permD)
  rw [h2]

/-- A backend where prefixes `a/` and `b/` overlap: both listings contain
the key `a/1`, so the resolved key list carries a duplicate. -/
def wDup : World :=
  { wAllOk with
    listCall := fun p _ =>
      if p = "a/" then .ok ⟨["a/1"], [], none⟩
      else .ok ⟨["a/1", "b/1"], [], none⟩ }

/-- As `wDup` but fetching `b/1` raises. -/
def wDupFail : World :=
  { wDup with fetch := fun k => if k = "b/1" then .error "nf" else .ok [9] }

/-- C9 counterexample: prefixes `a/`, `b/` resolve (with overlap) to
`[a/1, a/1, b/1]`; the fetch of the distinct key `b/1` fails, so the claim
predicts a returned mapping whose key set is exactly `{a/1}` (the distinct
keys that fetched successfully).  The code instead hits
`data.update(None)` on `b/1`'s result and `download_by_prefixes` raises
`TypeError`, returning no mapping at all. -/
theorem c9_counterexample :
    download_by_prefixes wDupFail ["a/", "b/"] "dict" (some "") 1 [0, 1]
      [0, 1, 2] =
    some { result := .error .typeError, created := 1, closed := 1,
           pool := some 3, eff := ⟨["a/1", "a/1", "b/1"], [], []⟩ } := by decide

/-- C9 amended: restricted to calls in which every per-key download unit
succeeds (forced by the `TypeError` of the counterexample, the C1 bug), the
claim holds: each resolved key occurrence — duplicates included — is fetched
exactly once, and the returned mapping holds each distinct key exactly once,
its key set being exactly the set of resolved keys.  (Duplicate occurrences
fetch the same backend value, so which occurrence writes last is not
observable in the mapping's values.) -/
theorem c9_amended_dedup (w : World) (pfxs : List String) (fmt : String)
    (od : Option String) (fuel : Nat) (permL permD : List Nat)
    (lb : ListBatchOut) (keys : List String)
    (h1 : list_keys_by_prefixes w pfxs fuel permL = some lb)
    (h2 : lb.result = some keys) (hne : keys ≠ [])
    (hperm : permD.Perm (List.range keys.length))
    (hsucc : ∀ k ∈ keys, ((download_by_key w k fmt od).1).isSome = true) :
    ∃ d, download_by_prefixes w pfxs fmt od fuel permL permD =
        some { result := .ok (some d), created := 1, closed := 1,
               pool := some (min max_workers keys.length),
               eff := batchEffects w keys fmt od } ∧
      (batchEffects w keys fmt od).fetches = keys ∧
      (d.map Prod.fst).Nodup ∧
      ∀ x, x ∈ d.map Prod.fst ↔ x ∈ keys := by
  have hjlen : (dlJobs w keys fmt od).length = keys.length := by
    unfold dlJobs
    simp
  have hji : ∀ i (h : i < keys.length),
      (dlJobs w keys fmt od).getD i (none, Effects.empty) =
        download_by_key w keys[i] fmt od := by
    intro i h
    rw [List.getD_eq_getElem _ _ (by omega)]
    unfold dlJobs
    simp
  have hall : ∀ r ∈ dlResults (dlJobs w keys fmt od) permD, r.isSome = true := by
    intro r hr
    unfold dlResults at hr
    obtain ⟨i, hi, hri⟩ := List.mem_map.mp hr
    have hilt : i < keys.length := List.mem_range.mp (hperm.mem_iff.mp hi)
    rw [← hri, hji i hilt]
    exact hsucc keys[i] (List.getElem_mem hilt)
  obtain ⟨d, hupd, hmem, hnd⟩ :=
    updateLoop_ok (dlResults (dlJobs w keys fmt od) permD) [] hall
  refine ⟨d, ?_, batchEffects_fetches w keys fmt od, hnd (by simp), ?_⟩
  · rw [dbp_eq w pfxs fmt od fuel permL permD lb keys h1 h2]
    unfold download_by_keys
    rw [if_neg hne, hupd]
    rfl
  · intro x
    rw [hmem x]
    simp only [List.map_nil, List.not_mem_nil, false_or]
    constructor
    · rintro ⟨v, hv⟩
      unfold dlResults at hv
      obtain ⟨i, hi, hri⟩ := List.mem_map.mp hv
      have hilt : i < keys.length := List.mem_range.mp (hperm.mem_iff.mp hi)
      rw [hji i hilt] at hri
      have hx : (x, v).1 = keys[i] := dk_key w keys[i] fmt od (x, v) hri
      rw [show x = keys[i] from hx]
      exact List.getElem_mem hilt
    · intro hx
      obtain ⟨i, hilt, hxi⟩ := List.mem_iff_getElem.mp hx
      have hip : i ∈ permD := hperm.mem_iff.mpr (List.mem_range.mpr hilt)
      obtain ⟨p, hp⟩ := Option.isSome_iff_exists.mp (hsucc x hx)
      have hp1 : p.1 = x := dk_key w x fmt od p hp
      refine ⟨p.2, ?_⟩
      unfold dlResults
      apply List.mem_map.mpr
      refine ⟨i, hip, ?_⟩
      rw [hji i hilt, hxi, hp, ← hp1]

theorem c9_witness :
    list_keys_by_prefixes wDup ["a/", "b/"] 1 [0, 1] =
      some ⟨some ["a/1", "a/1", "b/1"], 1, 1, some 2, 2⟩ ∧
    (["a/1", "a/1", "b/1"] : List String) ≠ [] ∧
    ([2, 0, 1] : List Nat).Perm (List.range 3) ∧
    (∀ k ∈ (["a/1", "a/1", "b/1"] : List String),
      ((download_by_key wDup k "dict" (some "")).1).isSome = true) ∧
    ∃ d, download_by_prefixes wDup ["a/", "b/"] "dict" (some "") 1 [0, 1]
          [2, 0, 1] =
        some { result := .ok (some d), created := 1, closed := 1,
               pool := some (min max_workers
                 (["a/1", "a/1", "b/1"] : List String).length),
               eff := batchEffects wDup ["a/1", "a/1", "b/1"] "dict" (some "") } ∧
      (batchEffects wDup ["a/1", "a/1", "b/1"] "dict" (some "")).fetches =
        ["a/1", "a/1", "b/1"] ∧
      (d.map Prod.fst).Nodup ∧
      ∀ x, x ∈ d.map Prod.fst ↔ x ∈ (["a/1", "a/1", "b/1"] : List String) :=
  ⟨by decide, by decide, by decide, by decide,
    c9_amended_dedup wDup ["a/", "b/"] "dict" (some "") 1 [0, 1] [2, 0, 1]
      ⟨some ["a/1", "a/1", "b/1"], 1, 1, some 2, 2⟩ ["a/1", "a/1", "b/1"]
      (by decide) (by decide) (by decide) (by decide) (by decide)⟩

/-- C10: with an empty input list each of the three batch operations skips
its `if len(items) > 0:` body entirely — no client, no pool, no remote call,
no side effect — and falls off the end of the function, returning Python
`None` rather than an empty sequence or mapping. -/
theorem c10_empty_input_returns_none (w : World) (fmt : String)
    (od : Option String) (fuel : Nat) (p1 p2 p3 : List Nat) :
    download_by_keys w [] fmt od p1 = ⟨.ok none, 0, 0, none, Effects.empty⟩ ∧
    list_keys_by_prefixes w [] fuel p2 = some ⟨none, 0, 0, none, 0⟩ ∧
    list_prefixes_by_prefixes w [] fuel p3 = some ⟨none, 0, 0, none, 0⟩ := by
  refine ⟨rfl, rfl, rfl⟩

end S3Reader
